import Mathlib

/-!
# Verification of the Youtube-Downloader concurrent download core

Shallow embedding of the parts of the repository relevant to the frozen
claims: the async batch downloader (`yt_dlp_async.py`), the optimized
chunked downloader (`yt_dlp_enhanced.py`) and the threaded CLI downloader
(`yt-dlp_downloader.py`).  Python dictionaries become structures with
`Option` fields (a missing key is `none`), Python numbers become `ℚ` where
float arithmetic occurs and `ℕ` otherwise, byte strings become `List ℕ`,
and the filesystem / network effects are passed in explicitly as oracles.
-/

/-- Python built-in `range(start, stop, step)` for a positive `step`,
via its documented closed form: the result has
`⌈(stop - start) / step⌉` elements and element `i` is `start + step * i`. -/
def pyRange (start stop step : ℕ) : List ℕ :=
  (List.range ((stop - start + step - 1) / step)).map (fun i => start + step * i)

/-- Stable insertion (descending by `key`): `x` goes in front of `y` iff
`key y ≤ key x`, so among equal keys the earlier element stays first. -/
def insertDesc (key : α → ℚ) (x : α) : List α → List α
  | [] => [x]
  | y :: ys => if key y ≤ key x then x :: y :: ys else y :: insertDesc key x ys

/-- Stable sort in descending key order; models Python's
`list.sort(key=..., reverse=True)`, which keeps equal-key elements in their
original relative order. -/
def sortDesc (key : α → ℚ) (l : List α) : List α :=
  l.foldr (insertDesc key) []

/-- `isPrefixB n h` : the list `n` is an initial run of `h` (Bool-valued). -/
def isPrefixB [BEq α] : List α → List α → Bool
  | [], _ => true
  | _ :: _, [] => false
  | a :: as, b :: bs => a == b && isPrefixB as bs

/-- Python's `needle in haystack` substring test on char lists. -/
def containsSub [BEq α] (needle : List α) : List α → Bool
  | [] => isPrefixB needle []
  | a :: hs => isPrefixB needle (a :: hs) || containsSub needle hs

/-- One encoding variant of a video (`FormatRecord` in the spec); embeds the
yt-dlp format dictionaries used by the repository.  A missing dictionary key
is `none`. -/
structure FormatRecord where
  format_id : String
  vcodec : Option String := none
  acodec : Option String := none
  ext : Option String := none
  height : Option ℚ := none
  fps : Option ℚ := none
  tbr : Option ℚ := none
  vbr : Option ℚ := none
  filesize : Option ℕ := none
  filesize_approx : Option ℕ := none
deriving Repr, DecidableEq

namespace YDAsync

/-- `yt_dlp_async.py`, `quality_score` (inside `_select_best_format`):
`height = f.get('height', 0) or 0`, `fps = f.get('fps', 30) or 30`,
`bitrate = f.get('tbr', 0) or 0`, score `= (height * fps) + (bitrate / 1000)`.
Python's `or` replaces a falsy (missing or zero) value by the default, so a
missing **or zero** fps becomes 30 while height and bitrate default to 0. -/
def quality_score (f : FormatRecord) : ℚ :=
  let height := f.height.getD 0
  let fps := match f.fps with
    | none => 30
    | some v => if v = 0 then 30 else v
  let bitrate := f.tbr.getD 0
  height * fps + bitrate / 1000

/-- `yt_dlp_async.py`, `AsyncYoutubeDownloader._select_best_format` with the
default `target_resolution=None` (the only way the repository calls it):
filter to `f.get('vcodec') != 'none'`; if nothing is left return
`formats[0] if formats else {}` (the empty dict is modelled as `none`);
otherwise sort descending by `quality_score` and return the head. -/
def select_best_format (formats : List FormatRecord) : Option FormatRecord :=
  let video_formats := formats.filter (fun f => f.vcodec != some "none")
  if video_formats.isEmpty then formats.head?
  else (sortDesc quality_score video_formats).head?

/-- `yt_dlp_async.py`, dataclass `VideoInfo` (the fields the claims need). -/
structure VideoInfo where
  url : String := ""
  title : String := ""
  video_id : String := ""
  formats : List FormatRecord := []
deriving Repr, DecidableEq

/-- `yt_dlp_async.py`, dataclass `DownloadStats` (counter fields). -/
structure DownloadStats where
  total_videos : ℕ := 0
  completed : ℕ := 0
  failed : ℕ := 0
  skipped : ℕ := 0
  total_bytes : ℕ := 0
deriving Repr, DecidableEq

/-- `DownloadStats.success_rate`: `0` when `total_videos == 0`, else
`completed / total_videos * 100`. -/
def DownloadStats.success_rate (s : DownloadStats) : ℚ :=
  if s.total_videos = 0 then 0 else (s.completed : ℚ) / (s.total_videos : ℚ) * 100

/-- Outcome of the blocking `ydl.download([url])` call inside
`AsyncYoutubeDownloader.download_video`: return code 0, a nonzero return
code, or a raised exception (caught by the surrounding `except`). -/
inductive DlRes where
  | ok
  | fail
  | exc
deriving Repr, DecidableEq

/-- Environment for one URL of a batch: what `extract_info` yields (`none`
on extraction failure), whether the duplicate checker reports the video as
already downloaded, and how the download call behaves if reached. -/
structure UrlEnv where
  extract : Option VideoInfo
  isDup : Bool
  dl : DlRes
deriving Repr, DecidableEq

/-- The `filesize` accounting of a completed download:
`best_format.get('filesize', 0) or best_format.get('filesize_approx', 0) or 0`. -/
def formatBytes (f : FormatRecord) : ℕ :=
  if f.filesize.getD 0 ≠ 0 then f.filesize.getD 0 else f.filesize_approx.getD 0

/-- `yt_dlp_async.py`, `AsyncYoutubeDownloader.download_video` (lines
219-276), called from the batch path where `video_info` is provided.  The
duplicate check bumps `skipped`; a falsy `best_format` (the selector yields
the empty dict exactly when `formats` is empty) returns failure **without
touching any counter**; otherwise the download outcome bumps `completed`
(return code 0) or `failed` (nonzero return code or exception). -/
def download_video (stats : DownloadStats) (info : VideoInfo) (isDup : Bool)
    (dl : DlRes) : DownloadStats × Bool :=
  if isDup then ({ stats with skipped := stats.skipped + 1 }, true)
  else
    match select_best_format info.formats with
    | none => (stats, false)
    | some bf =>
      match dl with
      | .ok =>
        ({ stats with
            completed := stats.completed + 1
            total_bytes := stats.total_bytes + formatBytes bf }, true)
      | .fail => ({ stats with failed := stats.failed + 1 }, false)
      | .exc => ({ stats with failed := stats.failed + 1 }, false)

/-- `yt_dlp_async.py`, `AsyncYoutubeDownloader.download_batch` (lines
303-356): `total_videos := len(urls)`; metadata is fetched for every URL
and URLs whose extraction failed are dropped from `valid_downloads`
without touching any counter; each remaining video runs
`download_video`.  Completions are consumed in arrival order in the
source; since the counters are commutative sums, the fold below processes
them in input order. -/
def download_batch (urls : List UrlEnv) : DownloadStats :=
  urls.foldl
    (fun s u =>
      match u.extract with
      | none => s
      | some info => (download_video s info u.isDup u.dl).1)
    { total_videos := urls.length }

/-- A URL contributes to `completed + failed + skipped` iff its metadata
extraction succeeded and it is either a duplicate or has a nonempty
`formats` list (this is the amended statistics invariant of claim C1). -/
def countsToward (u : UrlEnv) : Bool :=
  match u.extract with
  | none => false
  | some info => u.isDup || !info.formats.isEmpty

end YDAsync

namespace YDEnhanced

/-- `yt_dlp_enhanced.py`, the preferred-format filter chain inside
`OptimizedYoutubeDownloader._select_optimal_format` (lines 244-256): first
keep formats with a video codec, an audio codec and an `mp4`/`webm`
container; if that set is empty, fall back to every format with a video
codec. -/
def preferredFormats (formats : List FormatRecord) : List FormatRecord :=
  let vf1 := formats.filter (fun f =>
    f.vcodec != some "none" && f.acodec != some "none" &&
      (f.ext == some "mp4" || f.ext == some "webm"))
  if vf1.isEmpty then formats.filter (fun f => f.vcodec != some "none") else vf1

/-- `yt_dlp_enhanced.py`, `format_score` (lines 259-273):
`height = f.get('height', 0) or 0`, clamped to `max_height`;
`fps = f.get('fps', 30) or 30`; `bitrate = f.get('tbr', 0) or f.get('vbr', 0) or 0`;
plus 1000 when `f.get('acodec') != 'none'` and 500 when the container is mp4. -/
def format_score (f : FormatRecord) (max_height : ℚ) : ℚ :=
  let height0 := f.height.getD 0
  let height := if max_height < height0 then max_height else height0
  let fps := match f.fps with
    | none => 30
    | some v => if v = 0 then 30 else v
  let tbr0 := f.tbr.getD 0
  let bitrate := if tbr0 = 0 then f.vbr.getD 0 else tbr0
  let audio_bonus : ℚ := if f.acodec != some "none" then 1000 else 0
  let format_bonus : ℚ := if f.ext == some "mp4" then 500 else 0
  height * fps + bitrate + audio_bonus + format_bonus

/-- `yt_dlp_enhanced.py`, `OptimizedYoutubeDownloader._select_optimal_format`
(lines 237-276): `None` for an empty input, `None` when no video format at
all exists, otherwise the head of the preferred set sorted stably in
descending `format_score` order. -/
def select_optimal_format (formats : List FormatRecord) (max_height : ℚ) :
    Option FormatRecord :=
  if formats.isEmpty then none
  else if (preferredFormats formats).isEmpty then none
  else (sortDesc (format_score · max_height) (preferredFormats formats)).head?

/-- `yt_dlp_enhanced.py`, dataclass `ChunkInfo`: one byte-range segment,
offsets inclusive (the source field `end` is called `endPos` here). -/
structure ChunkInfo where
  start : ℕ
  endPos : ℕ
deriving Repr, DecidableEq

/-- The chunk partition built by `ChunkedDownloader.download_with_resume`
(lines 87-91): `for i in range(0, total_size, self.chunk_size):
start = i; end = min(i + self.chunk_size - 1, total_size - 1)`. -/
def computeChunks (total_size chunk_size : ℕ) : List ChunkInfo :=
  (pyRange 0 total_size chunk_size).map
    (fun i => ⟨i, min (i + chunk_size - 1) (total_size - 1)⟩)

/-- The `i`-th chunk of the partition, in closed form. -/
def chunkAt (total_size chunk_size i : ℕ) : ChunkInfo :=
  ⟨chunk_size * i, min (chunk_size * i + chunk_size - 1) (total_size - 1)⟩

/-- Inclusive byte range `[s, e]` of a remote file, as served by an honest
range-supporting server: `e - s + 1` bytes starting at offset `s`. -/
def fileSlice (file : List ℕ) (s e : ℕ) : List ℕ :=
  (file.drop s).take (e + 1 - s)

/-- Response of one ranged GET: an HTTP status with a body, or a raised
exception somewhere inside the request/streaming (caught by
`download_chunk`'s `except`). -/
inductive ChunkResult where
  | resp (status : ℕ) (body : List ℕ)
  | exc
deriving Repr, DecidableEq

/-- `ChunkedDownloader.download_chunk` (lines 56-72): returns the fully
written temp-file content on success (`some body`), and `none` (Python
`False`) when the status is neither 200 nor 206 or an exception occurred.
A mid-stream exception can leave a shorter temp file behind; it is modelled
as absent, since only full-expected-length files are ever reused and the
claims only speak about completed segment files. -/
def download_chunk (res : ChunkResult) : Option (List ℕ) :=
  match res with
  | .exc => none
  | .resp status body => if status = 200 ∨ status = 206 then some body else none

/-- `response.content.iter_chunked(8192)`: split the body into blocks of
`n` bytes (structural recursion via a fuel argument equal to the length). -/
def iterChunkedAux (n : ℕ) : ℕ → List ℕ → List (List ℕ)
  | 0, _ => []
  | _, [] => []
  | fuel + 1, l => l.take n :: iterChunkedAux n fuel (l.drop n)

/-- All `n`-byte blocks of `l` in order (`n > 0`). -/
def iterChunked (n : ℕ) (l : List ℕ) : List (List ℕ) :=
  iterChunkedAux n l.length l

/-- Loop body of `_simple_download`'s streaming: write each block, add its
length to `downloaded`, then call the progress callback — whose exception,
if any, is swallowed by the surrounding generic `except` which makes the
whole function return `False`.  Returns the file content written so far
paired with the success flag. -/
def simpleLoop (total : ℕ) (cbRaises : ℕ → ℕ → Bool) :
    List (List ℕ) → ℕ → List ℕ → List ℕ × Bool
  | [], _, written => (written, true)
  | piece :: rest, downloaded, written =>
    let downloaded' := downloaded + piece.length
    if cbRaises downloaded' total then (written ++ piece, false)
    else simpleLoop total cbRaises rest downloaded' (written ++ piece)

/-- `ChunkedDownloader._simple_download` (lines 133-153): plain GET; fail
unless status 200; stream `iter_chunked(8192)` blocks to the output file,
reporting progress after each block.  `cbRaises d t` tells whether the
caller-supplied callback raises when invoked as `progress_callback(d, t)`;
any exception is caught by the function's `except` and turned into a
`False` return.  Result: (bytes written to the output file, success). -/
def simple_download (file : List ℕ) (status : ℕ) (cbRaises : ℕ → ℕ → Bool) :
    List ℕ × Bool :=
  if status ≠ 200 then ([], false)
  else simpleLoop file.length cbRaises (iterChunked 8192 file) 0 []

/-- Result of the per-task check loop of `download_with_resume` (lines
113-118): some task failed (`return False`), the progress callback raised
(exception propagates out of the coroutine), or all tasks passed. -/
inductive LoopRes where
  | failed
  | raised
  | passed
deriving Repr, DecidableEq

/-- The check loop of `download_with_resume` (lines 113-118): walk the
gathered results in task order; a falsy result returns `False` at once;
otherwise the chunk is credited with its expected size and the progress
callback runs (uncaught if it raises).  `acc` is the running
`sum(c.downloaded for c in chunks)`. -/
def dwrLoop (total : ℕ) (cbRaises : ℕ → ℕ → Bool) :
    List (ℕ × Bool) → ℕ → LoopRes
  | [], _ => .passed
  | (size, okFlag) :: rest, acc =>
    if !okFlag then .failed
    else
      let acc' := acc + size
      if cbRaises acc' total then .raised
      else dwrLoop total cbRaises rest acc'

/-- Overall outcome of `download_with_resume`: `False`, an uncaught
callback exception, or `True` together with the merged artifact. -/
inductive DwrResult where
  | failed
  | raised
  | ok (merged : List ℕ)
deriving Repr, DecidableEq

/-- Observable outcome of one `download_with_resume` call: its result, the
ranged GETs it issued (as `(start, end)` pairs, in task order) and the
final state of the temp chunk directory (`fs i` = content of
`chunk_{i:04d}`, `none` when the file does not exist). -/
structure DwrOutcome where
  result : DwrResult
  gets : List (ℕ × ℕ)
  fs : ℕ → Option (List ℕ)

/-- Lines 98-101 of the source: chunk `i` is satisfied when its temp file
exists with exactly the expected `end - start + 1` bytes. -/
def chunkSatisfied (chunks : List ChunkInfo) (fs0 : ℕ → Option (List ℕ))
    (i : ℕ) : Bool :=
  match chunks[i]?, fs0 i with
  | some c, some data => data.length == c.endPos - c.start + 1
  | _, _ => false

/-- The indices of the chunks that still need a ranged GET (the `tasks`
list of lines 94-104, keyed by chunk index). -/
def taskIdxs (chunks : List ChunkInfo) (fs0 : ℕ → Option (List ℕ)) :
    List ℕ :=
  (List.range chunks.length).filter (fun i => !chunkSatisfied chunks fs0 i)

/-- `sum(c.downloaded for c in chunks)` right before the gather: satisfied
chunks have `downloaded` set to their expected size, the rest 0. -/
def satSum (chunks : List ChunkInfo) (fs0 : ℕ → Option (List ℕ)) : ℕ :=
  ((List.range chunks.length).filter (chunkSatisfied chunks fs0)).foldl
    (fun a i => a + ((chunks[i]?).map (fun c => c.endPos - c.start + 1)).getD 0) 0

/-- The chunk at index `i` (total access, indices are always in range). -/
def chunkOf (chunks : List ChunkInfo) (i : ℕ) : ChunkInfo :=
  (chunks[i]?).getD ⟨0, 0⟩

/-- The gathered per-task results, in task order: chunk index paired with
the `download_chunk` outcome for its byte range. -/
def chunkResults (chunks : List ChunkInfo) (fs0 : ℕ → Option (List ℕ))
    (transport : ℕ → ℕ → ChunkResult) : List (ℕ × Option (List ℕ)) :=
  (taskIdxs chunks fs0).map
    (fun i => (i, download_chunk
      (transport (chunkOf chunks i).start (chunkOf chunks i).endPos)))

/-- The temp-directory state after the gather: a task that succeeded wrote
its body to `chunk_{i:04d}`; everything else is as before. -/
def fsAfter (chunks : List ChunkInfo) (fs0 : ℕ → Option (List ℕ))
    (transport : ℕ → ℕ → ChunkResult) : ℕ → Option (List ℕ) :=
  fun j =>
    match (chunkResults chunks fs0 transport).find? (fun r => r.1 == j) with
    | some (_, some body) => some body
    | some (_, none) => fs0 j
    | none => fs0 j

/-- The merge of lines 120-127: concatenate the chunk files in index
order. -/
def mergeChunks (chunks : List ChunkInfo) (fs : ℕ → Option (List ℕ)) :
    List ℕ :=
  ((List.range chunks.length).map (fun i => (fs i).getD [])).flatten

/-- `ChunkedDownloader.download_with_resume` (lines 74-131).
Inputs: the remote `file` (its length is the probed `Content-Length`),
whether the server `supports` ranges, the chunk size `cs`, the status the
plain fallback GET would return, the pre-existing temp chunk files `fs0`,
the per-range transport behaviour, and the progress-callback raising
behaviour.  Mirrors the source: fall back to `_simple_download` when
ranges are unsupported or the size is 0; mark chunks whose temp file
exists with the exact expected length as satisfied; launch the rest,
then fail on the first falsy result, else merge all chunk files in index
order and delete them. -/
def download_with_resume (file : List ℕ) (supports : Bool) (cs : ℕ)
    (simpleStatus : ℕ) (fs0 : ℕ → Option (List ℕ))
    (transport : ℕ → ℕ → ChunkResult) (cbRaises : ℕ → ℕ → Bool) : DwrOutcome :=
  let ts := file.length
  if supports = false ∨ ts = 0 then
    let (written, okFlag) := simple_download file simpleStatus cbRaises
    { result := if okFlag then .ok written else .failed, gets := [], fs := fs0 }
  else
    let chunks := computeChunks ts cs
    let tasks := taskIdxs chunks fs0
    let results := chunkResults chunks fs0 transport
    let gets : List (ℕ × ℕ) := tasks.map
      (fun i => ((chunkOf chunks i).start, (chunkOf chunks i).endPos))
    let fs1 := fsAfter chunks fs0 transport
    if tasks.isEmpty then
      -- no unsatisfied chunk: straight to the merge (lines 120-131)
      { result := .ok (mergeChunks chunks fs1), gets := [],
        fs := fun i => if i < chunks.length then none else fs1 i }
    else if cbRaises (satSum chunks fs0) ts then
      -- initial progress call (lines 108-109) raised before any GET ran
      { result := .raised, gets := [], fs := fs0 }
    else
      match dwrLoop ts cbRaises
        (results.map (fun r =>
          ((chunkOf chunks r.1).endPos - (chunkOf chunks r.1).start + 1,
            r.2.isSome))) (satSum chunks fs0) with
      | .failed => { result := .failed, gets := gets, fs := fs1 }
      | .raised => { result := .raised, gets := gets, fs := fs1 }
      | .passed =>
        { result := .ok (mergeChunks chunks fs1), gets := gets,
          fs := fun i => if i < chunks.length then none else fs1 i }

end YDEnhanced

/-- The characters kept by the filename sanitizers:
`c.isalnum() or c in (' ', '.', '_', '-')` (ASCII model of `str.isalnum`). -/
def keepChar (c : Char) : Bool :=
  c.isAlphanum || c == ' ' || c == '.' || c == '_' || c == '-'

/-- Python `str.strip()` whitespace (ASCII part). -/
def isPySpace (c : Char) : Bool :=
  c == ' ' || c == '\t' || c == '\n' || c == '\r' || c == '\x0b' || c == '\x0c'

/-- Right-hand side of Python `str.strip()`: drop trailing whitespace. -/
def rstripChars (l : List Char) : List Char :=
  (l.reverse.dropWhile isPySpace).reverse

/-- Python `str.strip()` on a char list: drop leading and trailing
whitespace. -/
def stripChars (l : List Char) : List Char :=
  rstripChars (l.dropWhile isPySpace)

/-- `sanitize_filename` of `yt-dlp_downloader.py` (lines 209-213), which is
also `DuplicateChecker._sanitize_filename` of `yt_dlp_async.py` (lines
104-106): `"".join(c for c in name if c.isalnum() or c in (' ', '.', '_', '-')).strip()`. -/
def sanitize_filename (name : String) : String :=
  ⟨stripChars (name.data.filter keepChar)⟩

namespace YDThreaded

/-- `yt-dlp_downloader.py`, `handle_errors` (lines 229-254).  Returns
whether the caller should retry, and how many seconds it slept before
returning (`time.sleep(2)` on the retry path).  A message mentioning
`ffmpeg` (case-insensitive) returns `False` at once; every other message —
network, 403, 404, extraction, generic — only changes the logged text, and
the error is retried exactly when `attempt <= retries`. -/
def handle_errors (msg : String) (attempt retries : ℕ) : Bool × ℕ :=
  if containsSub "ffmpeg".data (msg.data.map Char.toLower) then (false, 0)
  else if attempt ≤ retries then (true, 2)
  else (false, 0)

/-- What one iteration of `download_video_threaded`'s `while` loop runs
into: `get_video_info` returned `None` (its own `except` swallowed the
error), the download machinery raised an exception with the given message,
or the download returned 0. -/
inductive AttemptOutcome where
  | extractFail
  | raiseMsg (msg : String)
  | success
deriving Repr, DecidableEq

/-- The retry loop of `download_video_threaded` (lines 291-411):
`while attempt <= retries`, where a failed `get_video_info` returns at
once, an exception consults `handle_errors` and either retries
(`attempt += 1`) or breaks.  `remaining` is the structural fuel
`retries + 1 - attempt`, so `remaining = 0` is exactly the loop guard
failing.  Returns (number of the last attempt started, success flag). -/
def attemptGo (oracle : ℕ → AttemptOutcome) (retries : ℕ) :
    ℕ → ℕ → ℕ × Bool
  | 0, attempt => (attempt - 1, false)
  | remaining + 1, attempt =>
    match oracle attempt with
    | .extractFail => (attempt, false)
    | .success => (attempt, true)
    | .raiseMsg msg =>
      if (handle_errors msg attempt retries).1 then
        attemptGo oracle retries remaining (attempt + 1)
      else (attempt, false)

/-- `download_video_threaded`'s whole retry loop, started at `attempt = 1`
with the given budget (`retries = 3` in every call site). -/
def download_attempts (oracle : ℕ → AttemptOutcome) (retries : ℕ) : ℕ × Bool :=
  attemptGo oracle retries retries 1

end YDThreaded

/-- Modelled from the spec's words for claim C9 only, to compare with the
code: the quality score `min(height, maxHeight) * fps + bitrate + (1000 if
has-audio) + (500 if mp4)` with every missing or null `height`, `fps`,
`bitrate` value "treated as 0". -/
def specScoreC9 (f : FormatRecord) (maxHeight : ℚ) : ℚ :=
  min (f.height.getD 0) maxHeight * f.fps.getD 0
    + (if f.tbr.getD 0 = 0 then f.vbr.getD 0 else f.tbr.getD 0)
    + (if f.acodec != some "none" then 1000 else 0)
    + (if f.ext == some "mp4" then 500 else 0)

/-! ### Concrete fixtures used by counterexamples and witnesses -/

/-- A high-quality video-only mp4 format (no audio track). -/
def c2A : FormatRecord :=
  { format_id := "137", vcodec := some "avc1", acodec := some "none",
    ext := some "mp4", height := some 1080, fps := some 60, tbr := some 5000 }

/-- A low-quality progressive mp4 format (video + audio). -/
def c2B : FormatRecord :=
  { format_id := "18", vcodec := some "avc1", acodec := some "mp4a",
    ext := some "mp4", height := some 360, fps := some 30, tbr := some 500 }

/-- An audio-only format (`vcodec == "none"`). -/
def c6aud : FormatRecord :=
  { format_id := "140", vcodec := some "none", acodec := some "mp4a",
    ext := some "m4a", tbr := some 129 }

/-- A five-byte remote file used by the chunked-transfer scenarios. -/
def c45file : List ℕ := [10, 11, 12, 13, 14]

/-! ## Generic list lemmas used by the claim proofs -/

lemma dropWhile_self (p : α → Bool) (l : List α) :
    (l.dropWhile p).dropWhile p = l.dropWhile p := by
  induction l with
  | nil => rfl
  | cons a l ih =>
    by_cases h : p a
    · simp [List.dropWhile_cons, h, ih]
    · simp [List.dropWhile_cons, h]

lemma exists_append_dropWhile (p : α → Bool) (l : List α) :
    ∃ t, t ++ l.dropWhile p = l := by
  induction l with
  | nil => exact ⟨[], rfl⟩
  | cons a l ih =>
    by_cases h : p a
    · obtain ⟨t, ht⟩ := ih
      exact ⟨a :: t, by simp [List.dropWhile_cons, h, ht]⟩
    · exact ⟨[], by simp [List.dropWhile_cons, h]⟩

lemma dropWhile_eq_self_of_append (p : α → Bool) (v w : List α)
    (h : (v ++ w).dropWhile p = v ++ w) : v.dropWhile p = v := by
  cases v with
  | nil => rfl
  | cons a v' =>
    by_cases ha : p a
    · exfalso
      rw [List.cons_append, List.dropWhile_cons, if_pos ha] at h
      have hlen := List.Sublist.length_le (List.dropWhile_sublist (l := v' ++ w) p)
      rw [h] at hlen
      simp at hlen
    · simp [List.dropWhile_cons, ha]

lemma rstripChars_idem (l : List Char) :
    rstripChars (rstripChars l) = rstripChars l := by
  simp [rstripChars, dropWhile_self]

lemma exists_append_rstripChars (l : List Char) :
    ∃ t, l = rstripChars l ++ t := by
  obtain ⟨t, ht⟩ := exists_append_dropWhile isPySpace l.reverse
  refine ⟨t.reverse, ?_⟩
  have := congrArg List.reverse ht
  simpa [rstripChars] using this.symm

lemma dropWhile_rstripChars (l : List Char)
    (h : l.dropWhile isPySpace = l) :
    (rstripChars l).dropWhile isPySpace = rstripChars l := by
  obtain ⟨t, ht⟩ := exists_append_rstripChars l
  exact dropWhile_eq_self_of_append isPySpace (rstripChars l) t (by rw [← ht, h])

lemma stripChars_idem (l : List Char) :
    stripChars (stripChars l) = stripChars l := by
  unfold stripChars
  rw [dropWhile_rstripChars (l.dropWhile isPySpace) (dropWhile_self _ _),
    rstripChars_idem]

lemma mem_stripChars {a : Char} {l : List Char} (h : a ∈ stripChars l) :
    a ∈ l := by
  unfold stripChars rstripChars at h
  rw [List.mem_reverse] at h
  have h1 := (List.dropWhile_sublist isPySpace).mem h
  rw [List.mem_reverse] at h1
  exact (List.dropWhile_sublist isPySpace).mem h1

/-- C10. For every input string `x`,
`sanitize_filename (sanitize_filename x) = sanitize_filename x`: the
keep-alphanumerics/space/dot/underscore/hyphen filter followed by a
whitespace trim is idempotent. -/
theorem C10_sanitize_idempotent (x : String) :
    sanitize_filename (sanitize_filename x) = sanitize_filename x := by
  unfold sanitize_filename
  have hfilter :
      (stripChars (x.data.filter keepChar)).filter keepChar
        = stripChars (x.data.filter keepChar) := by
    rw [List.filter_eq_self]
    intro a ha
    exact List.of_mem_filter (mem_stripChars ha)
  simp only [hfilter]
  rw [stripChars_idem]

/-! ## C8: retry policy of `yt-dlp_downloader.py` -/

namespace YDThreaded

lemma attemptGo_const_fail (msg : String)
    (hmsg : containsSub "ffmpeg".data (msg.data.map Char.toLower) = false)
    (retries : ℕ) :
    ∀ remaining attempt, 0 < remaining → attempt + remaining = retries + 1 →
      attemptGo (fun _ => .raiseMsg msg) retries remaining attempt
        = (retries, false) := by
  intro remaining
  induction remaining with
  | zero => intro attempt h0 _; exact absurd h0 (by omega)
  | succ r ih =>
    intro attempt _ hsum
    have hle : attempt ≤ retries := by omega
    simp only [attemptGo, handle_errors, hmsg, Bool.false_eq_true, if_false,
      if_pos hle]
    cases r with
    | zero =>
      have : attempt = retries := by omega
      simp [attemptGo, this]
    | succ r' => exact ih (attempt + 1) (by omega) (by omega)

/-- C8 (amended).  In `download_video_threaded`, a raised download error is
retried while `attempt <= retries` with a fixed 2-second sleep **regardless
of its class**: a message of the 404/403/network classes always consults the
same `attempt <= retries` test, and an oracle that raises the same
non-ffmpeg message on every attempt uses the full budget (`retries`
attempts) before giving up.  Only a missing-ffmpeg error is terminal on the
first attempt, and a failed metadata extraction returns at once without any
retry. -/
theorem C8_retry_policy (msg : String) (retries : ℕ) (hr : 1 ≤ retries) :
    (containsSub "ffmpeg".data (msg.data.map Char.toLower) = true →
      download_attempts (fun _ => .raiseMsg msg) retries = (1, false))
    ∧ (containsSub "ffmpeg".data (msg.data.map Char.toLower) = false →
      download_attempts (fun _ => .raiseMsg msg) retries = (retries, false))
    ∧ download_attempts (fun _ => .extractFail) retries = (1, false)
    ∧ (∀ attempt, attempt ≤ retries →
        containsSub "ffmpeg".data (msg.data.map Char.toLower) = false →
        handle_errors msg attempt retries = (true, 2)) := by
  obtain ⟨r, rfl⟩ : ∃ r, retries = r + 1 := ⟨retries - 1, by omega⟩
  refine ⟨?_, ?_, ?_, ?_⟩
  · intro hmsg
    simp [download_attempts, attemptGo, handle_errors, hmsg]
  · intro hmsg
    exact attemptGo_const_fail msg hmsg (r + 1) (r + 1) 1 (by omega) (by omega)
  · simp [download_attempts, attemptGo]
  · intro attempt hle hmsg
    simp [handle_errors, hmsg, hle]

/-- C8 counterexample.  The claim says HTTP 404 and 403 errors are never
retried; in the code `handle_errors` retries them (with the same 2-second
sleep) exactly like network errors, and a video failing every attempt with
`HTTP Error 404` is attempted the full 3 times. -/
theorem C8_counterexample :
    handle_errors "HTTP Error 404: Not Found" 1 3 = (true, 2)
    ∧ handle_errors "HTTP Error 403: Forbidden" 1 3 = (true, 2)
    ∧ download_attempts (fun _ => .raiseMsg "HTTP Error 404: Not Found") 3
        = (3, false) := by
  refine ⟨rfl, rfl, rfl⟩

/-- Witness for `C8_retry_policy` at `msg = "getaddrinfo failed"` (a
network-class message) and `retries = 3`. -/
theorem C8_witness :
    download_attempts (fun _ => .raiseMsg "getaddrinfo failed") 3 = (3, false)
    ∧ download_attempts (fun _ => .extractFail) 3 = (1, false) :=
  ⟨(C8_retry_policy "getaddrinfo failed" 3 (by norm_num)).2.1 rfl,
   (C8_retry_policy "getaddrinfo failed" 3 (by norm_num)).2.2.1⟩

end YDThreaded

/-! ## C9: treatment of missing quality fields in the scores -/

/-- C9 (amended).  In both scoring functions a missing (or null) `height`
and a missing bitrate are treated as 0, but a missing `fps` is treated as
**30** (the Python default `f.get('fps', 30) or 30`), not 0. -/
theorem C9_missing_fields (f : FormatRecord) (mh : ℚ) :
    YDEnhanced.format_score { f with fps := none } mh
      = YDEnhanced.format_score { f with fps := some 30 } mh
    ∧ YDEnhanced.format_score { f with height := none } mh
      = YDEnhanced.format_score { f with height := some 0 } mh
    ∧ YDEnhanced.format_score { f with tbr := none, vbr := none } mh
      = YDEnhanced.format_score { f with tbr := some 0, vbr := some 0 } mh
    ∧ YDAsync.quality_score { f with fps := none }
      = YDAsync.quality_score { f with fps := some 30 }
    ∧ YDAsync.quality_score { f with height := none }
      = YDAsync.quality_score { f with height := some 0 }
    ∧ YDAsync.quality_score { f with tbr := none }
      = YDAsync.quality_score { f with tbr := some 0 } := by
  refine ⟨?_, ?_, ?_, ?_, ?_, ?_⟩ <;>
    simp [YDEnhanced.format_score, YDAsync.quality_score]

/-- C9 counterexample.  A format whose `fps` is missing: the code scores it
with fps 30 (score 16000: `480*30 + 100 + 1000 + 500`), while treating the
missing fps as 0 — as the claim states — would give 1600. -/
theorem C9_counterexample :
    YDEnhanced.format_score
        { format_id := "x", vcodec := some "avc1", acodec := some "mp4a",
          ext := some "mp4", height := some 480, fps := none,
          tbr := some 100 } 1080 = 16000
    ∧ specScoreC9
        { format_id := "x", vcodec := some "avc1", acodec := some "mp4a",
          ext := some "mp4", height := some 480, fps := none,
          tbr := some 100 } 1080 = 1600
    ∧ (16000 : ℚ) ≠ 1600 := by
  refine ⟨?_, ?_, by norm_num⟩
  · simp [YDEnhanced.format_score]
    norm_num
  · simp [specScoreC9]
    norm_num

/-! ## C1: batch statistics of `yt_dlp_async.py` -/

lemma insertDesc_ne_nil (key : α → ℚ) (x : α) (l : List α) :
    insertDesc key x l ≠ [] := by
  cases l with
  | nil => simp [insertDesc]
  | cons y ys => by_cases h : key y ≤ key x <;> simp [insertDesc, h]

lemma sortDesc_cons (key : α → ℚ) (x : α) (xs : List α) :
    sortDesc key (x :: xs) = insertDesc key x (sortDesc key xs) := rfl

lemma sortDesc_eq_nil_iff (key : α → ℚ) (l : List α) :
    sortDesc key l = [] ↔ l = [] := by
  cases l with
  | nil => simp [sortDesc]
  | cons x xs =>
    simp only [sortDesc_cons]
    exact ⟨fun h => absurd h (insertDesc_ne_nil key x _), fun h => by simp at h⟩

namespace YDAsync

lemma select_best_format_eq_none_iff (formats : List FormatRecord) :
    select_best_format formats = none ↔ formats = [] := by
  unfold select_best_format
  by_cases h : (formats.filter (fun f => f.vcodec != some "none")).isEmpty
  · simp [h, List.head?_eq_none_iff]
  · have h' : (formats.filter (fun f => f.vcodec != some "none")).isEmpty = false := by
      simpa using h
    have hne : formats.filter (fun f => f.vcodec != some "none") ≠ [] := by
      intro hnil
      simp [hnil] at h'
    simp only [h', Bool.false_eq_true, if_false, List.head?_eq_none_iff,
      sortDesc_eq_nil_iff]
    exact ⟨fun hf => absurd hf hne, fun hf => absurd (by simp [hf]) hne⟩

lemma download_video_counters (s : DownloadStats) (info : VideoInfo)
    (isDup : Bool) (dl : DlRes) :
    ((download_video s info isDup dl).1.completed
        + (download_video s info isDup dl).1.failed
        + (download_video s info isDup dl).1.skipped
      = s.completed + s.failed + s.skipped
        + (if isDup || !info.formats.isEmpty then 1 else 0))
    ∧ (download_video s info isDup dl).1.total_videos = s.total_videos := by
  unfold download_video
  by_cases hd : isDup
  · simp [hd]; omega
  · simp only [hd, if_false, Bool.false_or]
    rcases hsel : select_best_format info.formats with _ | bf
    · rw [select_best_format_eq_none_iff] at hsel
      simp [hsel]
    · have hne : info.formats ≠ [] := by
        intro h
        rw [(select_best_format_eq_none_iff info.formats).2 h] at hsel
        exact Option.noConfusion hsel
      have : info.formats.isEmpty = false := by
        rw [← Bool.not_eq_true, List.isEmpty_iff]; exact hne
      cases dl <;> simp [this] <;> omega

lemma batch_fold_counters (urls : List UrlEnv) : ∀ s0 : DownloadStats,
    ((urls.foldl
        (fun s u =>
          match u.extract with
          | none => s
          | some info => (download_video s info u.isDup u.dl).1) s0).completed
      + (urls.foldl
        (fun s u =>
          match u.extract with
          | none => s
          | some info => (download_video s info u.isDup u.dl).1) s0).failed
      + (urls.foldl
        (fun s u =>
          match u.extract with
          | none => s
          | some info => (download_video s info u.isDup u.dl).1) s0).skipped
      = s0.completed + s0.failed + s0.skipped + urls.countP countsToward)
    ∧ (urls.foldl
        (fun s u =>
          match u.extract with
          | none => s
          | some info => (download_video s info u.isDup u.dl).1) s0).total_videos
      = s0.total_videos := by
  induction urls with
  | nil => intro s0; simp
  | cons u us ih =>
    intro s0
    simp only [List.foldl_cons, List.countP_cons]
    rcases hx : u.extract with _ | info
    · have hc : countsToward u = false := by simp [countsToward, hx]
      obtain ⟨h1, h2⟩ := ih s0
      rw [hx] at *
      constructor
      · rw [h1, hc]; simp
      · exact h2
    · obtain ⟨h1, h2⟩ := ih ((download_video s0 info u.isDup u.dl).1)
      obtain ⟨g1, g2⟩ := download_video_counters s0 info u.isDup u.dl
      have hc : countsToward u = (u.isDup || !info.formats.isEmpty) := by
        simp [countsToward, hx]
      constructor
      · rw [h1, g1, hc]
        by_cases hb : (u.isDup || !info.formats.isEmpty) = true
        · rw [if_pos hb]; omega
        · rw [if_neg hb]; omega
      · rw [h2, g2]

/-- C1 (amended).  For every completed batch,
`completed + failed + skipped` equals the number of input URLs whose
metadata extraction succeeded **and** which were either duplicates or had a
nonempty formats list — not `total`.  A URL whose extraction fails is
dropped from the batch without touching any counter (it does **not**
contribute to `failed`), and a valid video with an empty formats list also
returns without touching a counter, so in general
`completed + failed + skipped ≤ total`. -/
theorem C1_batch_statistics (urls : List UrlEnv) :
    (download_batch urls).total_videos = urls.length
    ∧ (download_batch urls).completed + (download_batch urls).failed
        + (download_batch urls).skipped = urls.countP countsToward
    ∧ urls.countP countsToward ≤ urls.length := by
  obtain ⟨h1, h2⟩ := batch_fold_counters urls { total_videos := urls.length }
  exact ⟨h2, by simpa using h1, List.countP_le_length countsToward⟩

/-- C1 counterexample.  A batch of one URL whose metadata extraction fails:
the final statistics are `completed = failed = skipped = 0` while
`total = 1`, so `completed + failed + skipped ≠ total` and the dropped URL
did not contribute to the failed count. -/
theorem C1_counterexample :
    (download_batch [⟨none, false, .fail⟩]).completed
      + (download_batch [⟨none, false, .fail⟩]).failed
      + (download_batch [⟨none, false, .fail⟩]).skipped = 0
    ∧ (download_batch [⟨none, false, .fail⟩]).total_videos = 1 :=
  ⟨rfl, rfl⟩

end YDAsync

/-! ## C6: lists with no video-capable format -/

/-- C6 (amended).  For a formats list in which every record is audio-only
(`vcodec == "none"`), the enhanced selector
(`_select_optimal_format`) returns `None` — a terminal per-video failure —
but the async selector (`_select_best_format`) instead falls back to
`formats[0]`, the first (possibly audio-only) format, returning the empty
dict only when the list itself is empty. -/
theorem C6_audio_only (formats : List FormatRecord) (mh : ℚ)
    (h : ∀ f ∈ formats, f.vcodec = some "none") :
    YDEnhanced.select_optimal_format formats mh = none
    ∧ YDAsync.select_best_format formats = formats.head? := by
  have hvf : formats.filter (fun f => f.vcodec != some "none") = [] :=
    List.filter_eq_nil_iff.2 (fun f hf => by simp [h f hf])
  have hvf1 : formats.filter (fun f =>
      f.vcodec != some "none" && f.acodec != some "none" &&
        (f.ext == some "mp4" || f.ext == some "webm")) = [] :=
    List.filter_eq_nil_iff.2 (fun f hf => by simp [h f hf])
  constructor
  · unfold YDEnhanced.select_optimal_format YDEnhanced.preferredFormats
    by_cases hempty : formats.isEmpty
    · simp [hempty]
    · simp [hempty, hvf, hvf1]
  · unfold YDAsync.select_best_format
    simp [hvf]

/-- C6 counterexample.  On a nonempty all-audio list the async selector
returns the first (audio-only) format instead of none, and the task then
proceeds to download it rather than ending in a per-video failure. -/
theorem C6_counterexample :
    YDAsync.select_best_format [c6aud] = some c6aud
    ∧ c6aud.vcodec = some "none" := by
  constructor
  · simp [YDAsync.select_best_format, c6aud]
  · rfl

/-- Witness for `C6_audio_only` at the one-element all-audio list. -/
theorem C6_witness :
    YDEnhanced.select_optimal_format [c6aud] 1080 = none
    ∧ YDAsync.select_best_format [c6aud] = [c6aud].head? :=
  C6_audio_only [c6aud] 1080 (by intro f hf; simp at hf; subst hf; rfl)

/-! ## C2: what the optimal-format selector maximizes -/

lemma head_sortDesc_spec (key : α → ℚ) :
    ∀ (l : List α) (f : α), (sortDesc key l).head? = some f →
      (∃ l1 l2, l = l1 ++ f :: l2 ∧ ∀ g ∈ l1, key g < key f)
      ∧ ∀ g ∈ l, key g ≤ key f := by
  intro l
  induction l with
  | nil => intro f h; simp [sortDesc] at h
  | cons x xs ih =>
    intro f h
    rw [sortDesc_cons] at h
    rcases hs : sortDesc key xs with _ | ⟨y, ys⟩
    · have hxs : xs = [] := (sortDesc_eq_nil_iff key xs).1 hs
      rw [hs] at h
      simp only [insertDesc, List.head?_cons, Option.some.injEq] at h
      subst h
      exact ⟨⟨[], xs, rfl, by simp⟩, by simp [hxs]⟩
    · rw [hs] at h
      obtain ⟨⟨l1, l2, hdec, hlt⟩, hle⟩ := ih y (by rw [hs]; rfl)
      by_cases hxy : key y ≤ key x
      · rw [insertDesc, if_pos hxy] at h
        simp only [List.head?_cons, Option.some.injEq] at h
        subst h
        refine ⟨⟨[], xs, rfl, by simp⟩, ?_⟩
        intro g hg
        rcases List.mem_cons.1 hg with rfl | hg'
        · exact le_refl _
        · exact le_trans (hle g hg') hxy
      · rw [insertDesc, if_neg hxy] at h
        simp only [List.head?_cons, Option.some.injEq] at h
        subst h
        refine ⟨⟨x :: l1, l2, by rw [hdec]; simp, ?_⟩, ?_⟩
        · intro g hg
          rcases List.mem_cons.1 hg with rfl | hg'
          · exact not_le.1 hxy
          · exact hlt g hg'
        · intro g hg
          rcases List.mem_cons.1 hg with rfl | hg'
          · exact le_of_lt (not_le.1 hxy)
          · exact hle g hg'

/-- C2 (amended).  `_select_optimal_format` does **not** maximize the score
over the whole input list: it maximizes over the *preferred* sublist
(formats with both codecs and an mp4/webm container, falling back to all
video-capable formats when that sublist is empty).  Within that sublist the
returned format has the maximal score
`min(height, maxHeight)*fps + bitrate + (1000 if has-audio) + (500 if mp4)`,
and every strictly earlier element of the sublist — hence every earlier
element of the original list that survived the filter — has a strictly
smaller score (ties go to the earliest, by sort stability). -/
theorem C2_select_optimal (formats : List FormatRecord) (mh : ℚ)
    (f : FormatRecord)
    (h : YDEnhanced.select_optimal_format formats mh = some f) :
    f ∈ YDEnhanced.preferredFormats formats
    ∧ (∀ g ∈ YDEnhanced.preferredFormats formats,
        YDEnhanced.format_score g mh ≤ YDEnhanced.format_score f mh)
    ∧ ∃ l1 l2, YDEnhanced.preferredFormats formats = l1 ++ f :: l2
        ∧ ∀ g ∈ l1, YDEnhanced.format_score g mh < YDEnhanced.format_score f mh := by
  unfold YDEnhanced.select_optimal_format at h
  by_cases h1 : formats.isEmpty
  · rw [if_pos h1] at h; exact Option.noConfusion h
  · rw [if_neg h1] at h
    by_cases h2 : (YDEnhanced.preferredFormats formats).isEmpty
    · rw [if_pos h2] at h; exact Option.noConfusion h
    · rw [if_neg h2] at h
      obtain ⟨⟨l1, l2, hdec, hlt⟩, hle⟩ :=
        head_sortDesc_spec (YDEnhanced.format_score · mh)
          (YDEnhanced.preferredFormats formats) f h
      exact ⟨by rw [hdec]; simp, hle, l1, l2, hdec, hlt⟩

/-- C2 counterexample.  With all of height/fps/bitrate present, the
selector returns the progressive format `c2B` (score 12800) although the
video-only format `c2A` has the strictly larger score 70300: the claimed
"maximize the score over the formats list" is false because the audio/mp4
filter runs before scoring. -/
theorem C2_counterexample :
    YDEnhanced.select_optimal_format [c2A, c2B] 1080 = some c2B
    ∧ YDEnhanced.format_score c2B 1080 < YDEnhanced.format_score c2A 1080 := by
  constructor
  · simp [YDEnhanced.select_optimal_format, YDEnhanced.preferredFormats,
      c2A, c2B, sortDesc, insertDesc]
  · have hA : YDEnhanced.format_score c2A 1080 = 70300 := by
      simp [YDEnhanced.format_score, c2A]
      norm_num
    have hB : YDEnhanced.format_score c2B 1080 = 12800 := by
      simp [YDEnhanced.format_score, c2B]
      norm_num
    rw [hA, hB]
    norm_num

/-- Witness for `C2_select_optimal` at the two-format fixture list. -/
theorem C2_witness :
    c2B ∈ YDEnhanced.preferredFormats [c2A, c2B]
    ∧ (∀ g ∈ YDEnhanced.preferredFormats [c2A, c2B],
        YDEnhanced.format_score g 1080 ≤ YDEnhanced.format_score c2B 1080)
    ∧ ∃ l1 l2, YDEnhanced.preferredFormats [c2A, c2B] = l1 ++ c2B :: l2
        ∧ ∀ g ∈ l1,
          YDEnhanced.format_score g 1080 < YDEnhanced.format_score c2B 1080 :=
  C2_select_optimal [c2A, c2B] 1080 c2B
    (by simp [YDEnhanced.select_optimal_format, YDEnhanced.preferredFormats,
      c2A, c2B, sortDesc, insertDesc])

/-! ## C3: the chunk partition -/

lemma flatten_chunk_slices (cs : ℕ) (hcs : 0 < cs) :
    ∀ (L : ℕ) (file : List ℕ), file.length ≤ L →
      ((List.range ((file.length + cs - 1) / cs)).map
        (fun i => (file.drop (cs * i)).take cs)).flatten = file := by
  intro L
  induction L with
  | zero =>
    intro file h
    have hfile : file = [] := List.length_eq_zero.1 (by omega)
    subst hfile
    simp [Nat.div_eq_of_lt (by omega : cs - 1 < cs)]
  | succ L ih =>
    intro file hlen
    by_cases hnil : file = []
    · subst hnil
      simp [Nat.div_eq_of_lt (by omega : cs - 1 < cs)]
    · have hts : 0 < file.length := List.length_pos.2 hnil
      have hn : (file.length + cs - 1) / cs = (file.length - 1) / cs + 1 := by
        have h1 : file.length + cs - 1 = (file.length - 1) + cs := by omega
        rw [h1, Nat.add_div_right _ hcs]
      have htail : ((file.drop cs).length + cs - 1) / cs = (file.length - 1) / cs := by
        rw [List.length_drop]
        by_cases hclt : cs ≤ file.length
        · have : file.length - cs + cs - 1 = file.length - 1 := by omega
          rw [this]
        · have h0 : file.length - cs = 0 := by omega
          rw [h0, Nat.div_eq_of_lt (by omega : 0 + cs - 1 < cs),
            Nat.div_eq_of_lt (by omega : file.length - 1 < cs)]
      rw [hn, List.range_succ_eq_map, List.map_cons, List.flatten_cons,
        Nat.mul_zero, List.drop_zero, List.map_map]
      have hmaps : (List.range ((file.length - 1) / cs)).map
            ((fun i => (file.drop (cs * i)).take cs) ∘ Nat.succ)
          = (List.range (((file.drop cs).length + cs - 1) / cs)).map
            (fun i => ((file.drop cs).drop (cs * i)).take cs) := by
        rw [htail]
        refine List.map_congr_left ?_
        intro a _
        simp only [Function.comp_apply, List.drop_drop]
        have : cs * Nat.succ a = cs + cs * a := by
          simp [Nat.succ_eq_add_one]
          ring
        rw [this]
      rw [hmaps, ih (file.drop cs) (by rw [List.length_drop]; omega),
        List.take_append_drop]

namespace YDEnhanced

lemma computeChunks_getElem (ts cs : ℕ) (k : ℕ)
    (hk : k < (ts + cs - 1) / cs) :
    (computeChunks ts cs)[k]? = some (chunkAt ts cs k) := by
  unfold computeChunks pyRange chunkAt
  rw [List.getElem?_map, List.getElem?_map, Nat.sub_zero,
    List.getElem?_range hk]
  simp

lemma chunk_index_lt_iff (ts cs : ℕ) (hcs : 0 < cs) (hts : 0 < ts) (k : ℕ) :
    k < (ts + cs - 1) / cs ↔ cs * k < ts := by
  rw [Nat.lt_iff_add_one_le, Nat.le_div_iff_mul_le hcs]
  have h1 : (k + 1) * cs = cs * k + cs := by ring
  rw [h1]
  omega

/-- C3.  For `totalSize > 0` and a positive chunk size, the partition built
by `download_with_resume` has exactly `⌈totalSize / chunkSize⌉` contiguous
segments: segment `k` is `[cs*k, min (cs*k + cs - 1) (totalSize - 1)]`,
every non-last segment is exactly `chunkSize` bytes, consecutive segments
are adjacent, and the sizes sum to exactly `totalSize` (so the merged
concatenation in index order has length `totalSize`). -/
theorem C3_chunk_partition (ts cs : ℕ) (hcs : 0 < cs) (hts : 0 < ts) :
    (computeChunks ts cs).length = (ts + cs - 1) / cs
    ∧ (∀ k, k < (ts + cs - 1) / cs →
        (computeChunks ts cs)[k]? = some (chunkAt ts cs k))
    ∧ (∀ k, k < (ts + cs - 1) / cs →
        (chunkAt ts cs k).start = cs * k
        ∧ (chunkAt ts cs k).endPos - (chunkAt ts cs k).start + 1
            = min cs (ts - cs * k))
    ∧ (∀ k, k + 1 < (ts + cs - 1) / cs →
        (chunkAt ts cs k).endPos - (chunkAt ts cs k).start + 1 = cs
        ∧ (chunkAt ts cs k).endPos + 1 = (chunkAt ts cs (k + 1)).start)
    ∧ ((computeChunks ts cs).map (fun c => c.endPos - c.start + 1)).sum = ts := by
  refine ⟨?_, computeChunks_getElem ts cs, ?_, ?_, ?_⟩
  · simp [computeChunks, pyRange]
  · intro k hk
    have hlt : cs * k < ts := (chunk_index_lt_iff ts cs hcs hts k).1 hk
    unfold chunkAt
    constructor
    · rfl
    · simp only
      omega
  · intro k hk
    have hlt : cs * (k + 1) < ts :=
      (chunk_index_lt_iff ts cs hcs hts (k + 1)).1 hk
    have hmul : cs * (k + 1) = cs * k + cs := by ring
    unfold chunkAt
    constructor
    · simp only
      omega
    · simp only
      omega
  · have hfl := flatten_chunk_slices cs hcs (List.replicate ts 0).length
      (List.replicate ts 0) le_rfl
    have hlen := congrArg List.length hfl
    rw [List.length_flatten, List.map_map, List.length_replicate] at hlen
    have hmaps : (computeChunks ts cs).map (fun c => c.endPos - c.start + 1)
        = (List.range ((ts + cs - 1) / cs)).map
          (List.length ∘ fun i => ((List.replicate ts (0 : ℕ)).drop (cs * i)).take cs) := by
      unfold computeChunks pyRange
      rw [List.map_map, List.map_map, Nat.sub_zero]
      refine List.map_congr_left ?_
      intro k hk
      rw [List.mem_range] at hk
      have hlt : cs * k < ts := (chunk_index_lt_iff ts cs hcs hts k).1 hk
      simp only [Function.comp_apply, List.length_take, List.length_drop,
        List.length_replicate]
      omega
    rw [hmaps, hlen]

end YDEnhanced

/-- Witness for `C3_chunk_partition`: scenario D of the spec, a 25 MiB file
with 10 MiB chunks yields exactly the three segments
`[0,10485759]`, `[10485760,20971519]`, `[20971520,26214399]` of sizes
10 MiB, 10 MiB and 5 MiB summing to exactly 25 MiB. -/
theorem C3_witness :
    YDEnhanced.computeChunks 26214400 10485760
      = [⟨0, 10485759⟩, ⟨10485760, 20971519⟩, ⟨20971520, 26214399⟩]
    ∧ (YDEnhanced.computeChunks 26214400 10485760).map
        (fun c => c.endPos - c.start + 1) = [10485760, 10485760, 5242880]
    ∧ ((YDEnhanced.computeChunks 26214400 10485760).length = (26214400 + 10485760 - 1) / 10485760
      ∧ (∀ k, k < (26214400 + 10485760 - 1) / 10485760 →
          (YDEnhanced.computeChunks 26214400 10485760)[k]? = some (YDEnhanced.chunkAt 26214400 10485760 k))
      ∧ (∀ k, k < (26214400 + 10485760 - 1) / 10485760 →
          (YDEnhanced.chunkAt 26214400 10485760 k).start = 10485760 * k
          ∧ (YDEnhanced.chunkAt 26214400 10485760 k).endPos - (YDEnhanced.chunkAt 26214400 10485760 k).start + 1
              = min 10485760 (26214400 - 10485760 * k))
      ∧ (∀ k, k + 1 < (26214400 + 10485760 - 1) / 10485760 →
          (YDEnhanced.chunkAt 26214400 10485760 k).endPos - (YDEnhanced.chunkAt 26214400 10485760 k).start + 1 = 10485760
          ∧ (YDEnhanced.chunkAt 26214400 10485760 k).endPos + 1 = (YDEnhanced.chunkAt 26214400 10485760 (k + 1)).start)
      ∧ ((YDEnhanced.computeChunks 26214400 10485760).map (fun c => c.endPos - c.start + 1)).sum = 26214400) :=
  ⟨by decide, by decide,
    YDEnhanced.C3_chunk_partition 26214400 10485760 (by norm_num) (by norm_num)⟩

/-! ## C7: a raising progress callback -/

/-- C7.  The source contradicts the spec's "must not block or fail the
transfer if the callback raises": with every stream block delivered and an
HTTP 200 status, `_simple_download` returns `False` as soon as the
caller-supplied progress callback raises (its exception is swallowed by the
function's own generic `except`, lines 147-153), whereas the identical
transfer with a quiet callback succeeds; through `download_with_resume`'s
fallback path the whole transfer is therefore reported failed. -/
theorem C7_callback_failure :
    (YDEnhanced.simple_download [0, 1, 2] 200 (fun _ _ => true)).2 = false
    ∧ (YDEnhanced.simple_download [0, 1, 2] 200 (fun _ _ => false)).2 = true
    ∧ (YDEnhanced.download_with_resume [0, 1, 2] false 10485760 200
        (fun _ => none) (fun _ _ => .exc) (fun _ _ => true)).result
      = .failed
    ∧ (YDEnhanced.download_with_resume [0, 1, 2] false 10485760 200
        (fun _ => none) (fun _ _ => .exc) (fun _ _ => false)).result
      = .ok [0, 1, 2] :=
  ⟨rfl, rfl, rfl, rfl⟩

/-! ## Shared machinery for the chunked-transfer claims C4 and C5 -/

lemma find?_map_pair (g : ℕ → α) :
    ∀ (l : List ℕ) (j : ℕ),
      (l.map (fun i => (i, g i))).find? (fun r => r.1 == j)
        = if j ∈ l then some (j, g j) else none := by
  intro l
  induction l with
  | nil => intro j; simp
  | cons i l ih =>
    intro j
    rw [List.map_cons, List.find?_cons]
    by_cases hij : i = j
    · subst hij
      simp
    · have : ((i, g i).1 == j) = false := by simp [hij]
      rw [this]
      rw [ih j]
      by_cases hj : j ∈ l <;> simp [hj, hij, Ne.symm hij]

lemma filter_ge_range (n k : ℕ) :
    (List.range n).filter (fun i => decide (k ≤ i)) = (List.range n).drop k := by
  induction n with
  | zero => simp
  | succ n ih =>
    rw [List.range_succ, List.filter_append, ih]
    by_cases h : k ≤ n
    · rw [List.drop_append_of_le_length (by simp [h])]
      simp [h]
    · have h1 : (List.range n).drop k = [] :=
        List.drop_eq_nil_of_le (by simp; omega)
      have h2 : ((List.range n) ++ [n]).drop k = [] :=
        List.drop_eq_nil_of_le (by simp; omega)
      rw [h1, h2]
      simp [h]

lemma mem_drop_range {n k i : ℕ} :
    i ∈ (List.range n).drop k ↔ k ≤ i ∧ i < n := by
  rw [← filter_ge_range, List.mem_filter, List.mem_range]
  simp [and_comm]

namespace YDEnhanced

lemma dwrLoop_passed (ts : ℕ) (cb : ℕ → ℕ → Bool)
    (hcb : ∀ a b, cb a b = false) :
    ∀ (l : List (ℕ × Bool)) (acc : ℕ), (∀ x ∈ l, x.2 = true) →
      dwrLoop ts cb l acc = .passed := by
  intro l
  induction l with
  | nil => intro acc _; rfl
  | cons x rest ih =>
    intro acc hall
    obtain ⟨size, flag⟩ := x
    have hx : flag = true := hall (size, flag) (by simp)
    subst hx
    simp only [dwrLoop, Bool.not_true, Bool.false_eq_true, if_false, hcb]
    exact ih _ (fun y hy => hall y (List.mem_cons_of_mem _ hy))

lemma dwrLoop_failed (ts : ℕ) (cb : ℕ → ℕ → Bool)
    (hcb : ∀ a b, cb a b = false) :
    ∀ (l : List (ℕ × Bool)) (acc : ℕ), (∃ x ∈ l, x.2 = false) →
      dwrLoop ts cb l acc = .failed := by
  intro l
  induction l with
  | nil => intro acc h; simp at h
  | cons x rest ih =>
    intro acc h
    obtain ⟨size, flag⟩ := x
    cases flag with
    | false => simp [dwrLoop]
    | true =>
      simp only [dwrLoop, Bool.not_true, Bool.false_eq_true, if_false, hcb]
      refine ih _ ?_
      obtain ⟨y, hy, hyf⟩ := h
      rcases List.mem_cons.1 hy with rfl | hy'
      · exact absurd hyf (by simp)
      · exact ⟨y, hy', hyf⟩

lemma computeChunks_length (ts cs : ℕ) :
    (computeChunks ts cs).length = (ts + cs - 1) / cs := by
  simp [computeChunks, pyRange]

lemma chunkOf_computeChunks (ts cs i : ℕ) (hi : i < (ts + cs - 1) / cs) :
    chunkOf (computeChunks ts cs) i = chunkAt ts cs i := by
  unfold chunkOf
  rw [computeChunks_getElem ts cs i hi]
  rfl

lemma chunkSatisfied_none (chunks : List ChunkInfo) (i : ℕ) :
    chunkSatisfied chunks (fun _ => none) i = false := by
  rcases h : chunks[i]? with _ | c <;> simp [chunkSatisfied, h]

lemma taskIdxs_none (chunks : List ChunkInfo) :
    taskIdxs chunks (fun _ => none) = List.range chunks.length := by
  unfold taskIdxs
  rw [List.filter_eq_self]
  intro i _
  simp [chunkSatisfied_none]

lemma fsAfter_eq (chunks : List ChunkInfo) (fs0 : ℕ → Option (List ℕ))
    (transport : ℕ → ℕ → ChunkResult) (j : ℕ) :
    fsAfter chunks fs0 transport j
      = if j ∈ taskIdxs chunks fs0 then
          match download_chunk
            (transport (chunkOf chunks j).start (chunkOf chunks j).endPos) with
          | some body => some body
          | none => fs0 j
        else fs0 j := by
  unfold fsAfter chunkResults
  rw [find?_map_pair]
  by_cases hj : j ∈ taskIdxs chunks fs0
  · rw [if_pos hj, if_pos hj]
    rcases download_chunk
      (transport (chunkOf chunks j).start (chunkOf chunks j).endPos) with _ | b
    · rfl
    · rfl
  · rw [if_neg hj, if_neg hj]

lemma fileSlice_chunkAt (file : List ℕ) (cs i : ℕ) (hcs : 0 < cs)
    (hi : cs * i < file.length) :
    fileSlice file (chunkAt file.length cs i).start
        (chunkAt file.length cs i).endPos
      = (file.drop (cs * i)).take cs := by
  unfold fileSlice chunkAt
  simp only
  rw [List.take_eq_take]
  simp only [List.length_drop, Nat.min_def]
  split_ifs <;> omega

lemma fileSlice_chunkAt_length (file : List ℕ) (cs i : ℕ) (hcs : 0 < cs)
    (hi : cs * i < file.length) :
    (fileSlice file (chunkAt file.length cs i).start
        (chunkAt file.length cs i).endPos).length
      = (chunkAt file.length cs i).endPos - (chunkAt file.length cs i).start + 1 := by
  unfold fileSlice chunkAt
  simp only [List.length_take, List.length_drop, Nat.min_def]
  split_ifs <;> omega

lemma mergeChunks_eq_file (file : List ℕ) (cs : ℕ) (hcs : 0 < cs)
    (fs : ℕ → Option (List ℕ))
    (h : ∀ i, i < (file.length + cs - 1) / cs →
      fs i = some (fileSlice file (chunkAt file.length cs i).start
        (chunkAt file.length cs i).endPos)) :
    mergeChunks (computeChunks file.length cs) fs = file := by
  unfold mergeChunks
  rw [computeChunks_length]
  by_cases hts : file.length = 0
  · have hfile : file = [] := List.length_eq_zero.1 hts
    subst hfile
    have h0 : (([] : List ℕ).length + cs - 1) / cs = 0 := by
      simp only [List.length_nil]
      exact Nat.div_eq_of_lt (by omega)
    rw [h0]
    simp
  · have hm : (List.range ((file.length + cs - 1) / cs)).map
          (fun i => (fs i).getD [])
        = (List.range ((file.length + cs - 1) / cs)).map
          (fun i => (file.drop (cs * i)).take cs) := by
      refine List.map_congr_left ?_
      intro i hi
      rw [List.mem_range] at hi
      have hlt : cs * i < file.length :=
        (chunk_index_lt_iff file.length cs hcs (by omega) i).1 hi
      rw [h i hi, Option.getD_some, fileSlice_chunkAt file cs i hcs hlt]
    rw [hm, flatten_chunk_slices cs hcs file.length file le_rfl]

end YDEnhanced

namespace YDEnhanced

lemma taskIdxs_resume (file : List ℕ) (cs k : ℕ) (fs0 : ℕ → Option (List ℕ))
    (hcs : 0 < cs) (hts : 0 < file.length)
    (hpre : ∀ i, i < k → fs0 i = some (fileSlice file
      (chunkAt file.length cs i).start (chunkAt file.length cs i).endPos))
    (hrest : ∀ i, k ≤ i → fs0 i = none) :
    taskIdxs (computeChunks file.length cs) fs0
      = (List.range ((file.length + cs - 1) / cs)).drop k := by
  unfold taskIdxs
  rw [computeChunks_length, ← filter_ge_range]
  refine List.filter_congr ?_
  intro i hi
  rw [List.mem_range] at hi
  have hci : (computeChunks file.length cs)[i]? = some (chunkAt file.length cs i) :=
    computeChunks_getElem _ _ _ hi
  by_cases hik : i < k
  · have hlt : cs * i < file.length := (chunk_index_lt_iff _ _ hcs hts i).1 hi
    have hsat : chunkSatisfied (computeChunks file.length cs) fs0 i = true := by
      unfold chunkSatisfied
      rw [hci, hpre i hik]
      simp [fileSlice_chunkAt_length file cs i hcs hlt]
    rw [hsat, decide_eq_false (by omega : ¬ k ≤ i)]
    rfl
  · have hsat : chunkSatisfied (computeChunks file.length cs) fs0 i = false := by
      unfold chunkSatisfied
      rw [hci, hrest i (by omega)]
    rw [hsat, decide_eq_true (by omega : k ≤ i)]
    rfl

lemma dwr_resume_ok (file : List ℕ) (cs k simpleStatus : ℕ)
    (fs0 : ℕ → Option (List ℕ)) (hcs : 0 < cs) (hts : 0 < file.length)
    (hpre : ∀ i, i < k → fs0 i = some (fileSlice file
      (chunkAt file.length cs i).start (chunkAt file.length cs i).endPos))
    (hrest : ∀ i, k ≤ i → fs0 i = none)
    (hk : k < (file.length + cs - 1) / cs) :
    (download_with_resume file true cs simpleStatus fs0
        (fun s e => .resp 206 (fileSlice file s e)) (fun _ _ => false)).result
      = .ok file
    ∧ (download_with_resume file true cs simpleStatus fs0
        (fun s e => .resp 206 (fileSlice file s e)) (fun _ _ => false)).gets
      = ((List.range ((file.length + cs - 1) / cs)).drop k).map
          (fun i => ((chunkAt file.length cs i).start,
            (chunkAt file.length cs i).endPos)) := by
  have htask : taskIdxs (computeChunks file.length cs) fs0
      = (List.range ((file.length + cs - 1) / cs)).drop k :=
    taskIdxs_resume file cs k fs0 hcs hts hpre hrest
  have hne : (taskIdxs (computeChunks file.length cs) fs0).isEmpty = false := by
    rw [htask]
    have hlen : ((List.range ((file.length + cs - 1) / cs)).drop k).length
        = (file.length + cs - 1) / cs - k := by simp
    rcases hd : (List.range ((file.length + cs - 1) / cs)).drop k with _ | ⟨a, l⟩
    · rw [hd] at hlen
      simp at hlen
      omega
    · rfl
  have hloop : dwrLoop file.length (fun _ _ => false)
      ((chunkResults (computeChunks file.length cs) fs0
        (fun s e => .resp 206 (fileSlice file s e))).map (fun r =>
          ((chunkOf (computeChunks file.length cs) r.1).endPos
            - (chunkOf (computeChunks file.length cs) r.1).start + 1, r.2.isSome)))
      (satSum (computeChunks file.length cs) fs0) = .passed := by
    refine dwrLoop_passed _ _ (fun _ _ => rfl) _ _ ?_
    intro x hx
    rw [List.mem_map] at hx
    obtain ⟨r, hr, rfl⟩ := hx
    unfold chunkResults at hr
    rw [List.mem_map] at hr
    obtain ⟨i, _, rfl⟩ := hr
    simp [download_chunk]
  have hfs1 : ∀ i, i < (file.length + cs - 1) / cs →
      fsAfter (computeChunks file.length cs) fs0
          (fun s e => .resp 206 (fileSlice file s e)) i
        = some (fileSlice file (chunkAt file.length cs i).start
            (chunkAt file.length cs i).endPos) := by
    intro i hi
    rw [fsAfter_eq, htask]
    by_cases hik : i ∈ (List.range ((file.length + cs - 1) / cs)).drop k
    · rw [if_pos hik, chunkOf_computeChunks _ _ _ hi]
      simp [download_chunk]
    · rw [if_neg hik]
      have hik' : i < k := by
        rcases Nat.lt_or_ge i k with h | h
        · exact h
        · exact absurd (mem_drop_range.2 ⟨h, hi⟩) hik
      exact hpre i hik'
  have hmerge : mergeChunks (computeChunks file.length cs)
      (fsAfter (computeChunks file.length cs) fs0
        (fun s e => .resp 206 (fileSlice file s e))) = file :=
    mergeChunks_eq_file file cs hcs _ hfs1
  have hgets : (taskIdxs (computeChunks file.length cs) fs0).map
      (fun i => ((chunkOf (computeChunks file.length cs) i).start,
        (chunkOf (computeChunks file.length cs) i).endPos))
      = ((List.range ((file.length + cs - 1) / cs)).drop k).map
        (fun i => ((chunkAt file.length cs i).start,
          (chunkAt file.length cs i).endPos)) := by
    rw [htask]
    refine List.map_congr_left ?_
    intro i hi
    rw [chunkOf_computeChunks _ _ _ (mem_drop_range.1 hi).2]
  have hcond : ¬ (true = false ∨ file.length = 0) := by
    rintro (h | h)
    · exact Bool.noConfusion h
    · omega
  simp only [download_with_resume]
  rw [if_neg hcond]
  simp only [hne, Bool.false_eq_true, if_false, hloop]
  exact ⟨by rw [hmerge], hgets⟩

/-- C4.  With an honest range-serving transport, if the temp directory
holds exactly the first `k` segments (each with its full expected
content, hence its exact expected length) and `k` is less than the number
`n` of segments, then re-invoking the transfer issues ranged GETs for
exactly the segments `k+1 .. n` (indices `k .. n-1`, in order) and
succeeds with the merged artifact equal to the remote file — the same
artifact an uninterrupted run (empty temp directory) produces. -/
theorem C4_resume (file : List ℕ) (cs k simpleStatus : ℕ)
    (fs0 : ℕ → Option (List ℕ)) (hcs : 0 < cs) (hts : 0 < file.length)
    (hpre : ∀ i, i < k → fs0 i = some (fileSlice file
      (chunkAt file.length cs i).start (chunkAt file.length cs i).endPos))
    (hrest : ∀ i, k ≤ i → fs0 i = none)
    (hk : k < (file.length + cs - 1) / cs) :
    (download_with_resume file true cs simpleStatus fs0
        (fun s e => .resp 206 (fileSlice file s e)) (fun _ _ => false)).result
      = .ok file
    ∧ (download_with_resume file true cs simpleStatus fs0
        (fun s e => .resp 206 (fileSlice file s e)) (fun _ _ => false)).gets
      = ((List.range ((file.length + cs - 1) / cs)).drop k).map
          (fun i => ((chunkAt file.length cs i).start,
            (chunkAt file.length cs i).endPos))
    ∧ (download_with_resume file true cs simpleStatus (fun _ => none)
        (fun s e => .resp 206 (fileSlice file s e)) (fun _ _ => false)).result
      = .ok file := by
  obtain ⟨h1, h2⟩ := dwr_resume_ok file cs k simpleStatus fs0 hcs hts hpre hrest hk
  obtain ⟨h3, _⟩ := dwr_resume_ok file cs 0 simpleStatus (fun _ => none) hcs hts
    (fun i hi => absurd hi (by omega)) (fun _ _ => rfl)
    (lt_of_le_of_lt (Nat.zero_le k) hk)
  exact ⟨h1, h2, h3⟩

/-- C5.  On a fresh run (empty temp directory), if any segment's ranged GET
raises or returns a status other than 200/206, the whole chunked transfer
returns failure — no merged artifact is produced — while the temp file of
every segment whose GET completed is left on disk for a future resume. -/
theorem C5_segment_failure (file : List ℕ) (cs simpleStatus : ℕ)
    (transport : ℕ → ℕ → ChunkResult) (_hcs : 0 < cs) (hts : 0 < file.length)
    (hfail : ∃ j, j < (file.length + cs - 1) / cs ∧
      download_chunk (transport (chunkAt file.length cs j).start
        (chunkAt file.length cs j).endPos) = none) :
    (download_with_resume file true cs simpleStatus (fun _ => none)
        transport (fun _ _ => false)).result = .failed
    ∧ ∀ i body, i < (file.length + cs - 1) / cs →
        download_chunk (transport (chunkAt file.length cs i).start
          (chunkAt file.length cs i).endPos) = some body →
        (download_with_resume file true cs simpleStatus (fun _ => none)
          transport (fun _ _ => false)).fs i = some body := by
  obtain ⟨j, hj, hjfail⟩ := hfail
  have htask : taskIdxs (computeChunks file.length cs) (fun _ => none)
      = List.range ((file.length + cs - 1) / cs) := by
    rw [taskIdxs_none, computeChunks_length]
  have hne : (taskIdxs (computeChunks file.length cs) (fun _ => none)).isEmpty
      = false := by
    rw [htask]
    rcases hd : List.range ((file.length + cs - 1) / cs) with _ | ⟨a, l⟩
    · have := congrArg List.length hd
      simp at this
      omega
    · rfl
  have hcond : ¬ (true = false ∨ file.length = 0) := by
    rintro (h | h)
    · exact Bool.noConfusion h
    · omega
  have hloop : dwrLoop file.length (fun _ _ => false)
      ((chunkResults (computeChunks file.length cs) (fun _ => none)
        transport).map (fun r =>
          ((chunkOf (computeChunks file.length cs) r.1).endPos
            - (chunkOf (computeChunks file.length cs) r.1).start + 1, r.2.isSome)))
      (satSum (computeChunks file.length cs) (fun _ => none)) = .failed := by
    refine dwrLoop_failed _ _ (fun _ _ => rfl) _ _ ?_
    have hjmem : j ∈ taskIdxs (computeChunks file.length cs) (fun _ => none) := by
      rw [htask, List.mem_range]; exact hj
    have hjres : (j, download_chunk
        (transport (chunkOf (computeChunks file.length cs) j).start
          (chunkOf (computeChunks file.length cs) j).endPos))
        ∈ chunkResults (computeChunks file.length cs) (fun _ => none) transport := by
      unfold chunkResults
      exact List.mem_map.2 ⟨j, hjmem, rfl⟩
    refine ⟨((chunkOf (computeChunks file.length cs) j).endPos
      - (chunkOf (computeChunks file.length cs) j).start + 1,
      (download_chunk (transport (chunkOf (computeChunks file.length cs) j).start
        (chunkOf (computeChunks file.length cs) j).endPos)).isSome), ?_, ?_⟩
    · exact List.mem_map.2 ⟨_, hjres, rfl⟩
    · simp only
      rw [chunkOf_computeChunks _ _ _ hj, hjfail]
      rfl
  have hout : download_with_resume file true cs simpleStatus (fun _ => none)
      transport (fun _ _ => false)
      = { result := .failed,
          gets := (taskIdxs (computeChunks file.length cs) (fun _ => none)).map
            (fun i => ((chunkOf (computeChunks file.length cs) i).start,
              (chunkOf (computeChunks file.length cs) i).endPos)),
          fs := fsAfter (computeChunks file.length cs) (fun _ => none)
            transport } := by
    simp only [download_with_resume]
    rw [if_neg hcond]
    simp only [hne, Bool.false_eq_true, if_false, hloop]
  constructor
  · rw [hout]
  · intro i body hi hbody
    rw [hout]
    show fsAfter (computeChunks file.length cs) (fun _ => none) transport i
      = some body
    rw [fsAfter_eq]
    rw [if_pos (by rw [htask, List.mem_range]; exact hi)]
    rw [chunkOf_computeChunks _ _ _ hi, hbody]

end YDEnhanced

/-- Witness for `YDEnhanced.C4_resume`: the 5-byte file with 2-byte chunks
(3 segments), interrupted after segment 1 (`chunk_0000` holds `[10, 11]`):
the re-run GETs only segments 2 and 3 and produces the full file, equal to
the artifact of the uninterrupted run. -/
theorem C4_witness :
    (YDEnhanced.download_with_resume c45file true 2 200
        (fun i => if i = 0 then some [10, 11] else none)
        (fun s e => .resp 206 (YDEnhanced.fileSlice c45file s e))
        (fun _ _ => false)).result = .ok c45file
    ∧ (YDEnhanced.download_with_resume c45file true 2 200
        (fun i => if i = 0 then some [10, 11] else none)
        (fun s e => .resp 206 (YDEnhanced.fileSlice c45file s e))
        (fun _ _ => false)).gets
      = ((List.range ((c45file.length + 2 - 1) / 2)).drop 1).map
          (fun i => ((YDEnhanced.chunkAt c45file.length 2 i).start,
            (YDEnhanced.chunkAt c45file.length 2 i).endPos))
    ∧ (YDEnhanced.download_with_resume c45file true 2 200 (fun _ => none)
        (fun s e => .resp 206 (YDEnhanced.fileSlice c45file s e))
        (fun _ _ => false)).result = .ok c45file :=
  YDEnhanced.C4_resume c45file 2 1 200
    (fun i => if i = 0 then some [10, 11] else none)
    (by norm_num) (by decide)
    (fun i hi => by
      have h0 : i = 0 := by omega
      subst h0
      rfl)
    (fun i hi => by
      have h0 : i ≠ 0 := by omega
      simp [h0])
    (by decide)

/-- Witness for `YDEnhanced.C5_segment_failure`: same 5-byte file, honest
transport except that segment 2 (byte range `[2, 3]`) answers HTTP 404.
The transfer fails, and the completed segment files `chunk_0000 = [10,11]`
and `chunk_0002 = [14]` stay on disk. -/
theorem C5_witness :
    (YDEnhanced.download_with_resume c45file true 2 200 (fun _ => none)
        (fun s e => if s = 2 then .resp 404 []
          else .resp 206 (YDEnhanced.fileSlice c45file s e))
        (fun _ _ => false)).result = .failed
    ∧ (YDEnhanced.download_with_resume c45file true 2 200 (fun _ => none)
        (fun s e => if s = 2 then .resp 404 []
          else .resp 206 (YDEnhanced.fileSlice c45file s e))
        (fun _ _ => false)).fs 0 = some [10, 11]
    ∧ (YDEnhanced.download_with_resume c45file true 2 200 (fun _ => none)
        (fun s e => if s = 2 then .resp 404 []
          else .resp 206 (YDEnhanced.fileSlice c45file s e))
        (fun _ _ => false)).fs 2 = some [14] := by
  have h := YDEnhanced.C5_segment_failure c45file 2 200
    (fun s e => if s = 2 then .resp 404 []
      else .resp 206 (YDEnhanced.fileSlice c45file s e))
    (by norm_num) (by decide) ⟨1, by decide, by decide⟩
  exact ⟨h.1, h.2 0 [10, 11] (by decide) (by decide),
    h.2 2 [14] (by decide) (by decide)⟩
